import Mathlib

/-!
Verification of the Food Calorie Tracker (src/food_detector_app2.py).

The program keeps a meal log in a single JSON file `meal_log.json`: a
dictionary from ISO date strings to a per-meal-slot dictionary of calorie
totals. We embed the JSON document as an association list with Python-dict
update semantics (update in place, append new keys at the end), JSON integers
as `Int`, and the persisted file as the sole state threaded through the
operations. Raising an exception before `save_log` is reached leaves the
persisted state unchanged, so the add-button handler is embedded as a function
returning the resulting persisted document together with an `Except` outcome.
-/

/-- The static nutrition table (src/food_detector_app2.py lines 14-55):
food identifier to calories per reference serving. Each Python value is a
one-key dict with key "calories"; only that number is modelled. -/
def NUTRITION : List (String × Int) := [
  ("banana", 105), ("apple", 95), ("orange", 62), ("lemon", 17), ("lime", 20),
  ("pineapple", 50), ("mango", 99), ("papaya", 55), ("grapes", 62), ("egg", 78),
  ("bread", 66), ("idli", 39), ("dosa", 133),
  ("biryani", 290), ("veg_biryani", 240), ("chicken_biryani", 300),
  ("dal", 120), ("sambar", 100),
  ("chapati", 120), ("rice", 136), ("curd", 98),
  ("pongal", 210), ("poha", 180), ("upma", 220),
  ("vada", 97), ("samosa", 262),
  ("mysore_pak", 390), ("gulab_jamun", 150), ("laddu", 186),
  ("paneer", 265), ("chole", 210), ("rajma", 230)]

/-- The four meal slots (line 58). -/
def MEAL_TYPES : List String := ["Breakfast", "Lunch", "Dinner", "Snacks"]

/-- A day entry of the meal log: meal-slot name to accumulated calories,
as stored in the JSON document. -/
abbrev DaySlots := List (String × Int)

/-- The whole persisted meal log: date string to day entry. -/
abbrev MealLog := List (String × DaySlots)

/-- Python dict assignment `d[k] = v`: replace the value of an existing key in
place (keeping insertion order), or append a new key at the end. -/
def dictInsert {β : Type} (l : List (String × β)) (k : String) (v : β) :
    List (String × β) :=
  match l with
  | [] => [(k, v)]
  | (k1, v1) :: rest =>
      if k1 = k then (k, v) :: rest else (k1, v1) :: dictInsert rest k v

/-- The dict comprehension at line 214: all four slots initialized to 0. -/
def zeroSlots : DaySlots := MEAL_TYPES.map fun m => (m, (0 : Int))

/-- Lines 213-214: `if today not in log: log[today] = {m: 0 for m in MEAL_TYPES}`. -/
def initDay (log : MealLog) (today : String) : MealLog :=
  if (log.lookup today).isSome then log else dictInsert log today zeroSlots

/-- The one failure mode of the add path: an unrecognized meal-slot name makes
`log[today][meal_choice]` raise a KeyError (the spec's InvalidSlotError). -/
inductive LogError : Type
  | invalidSlot
  deriving DecidableEq, Repr

/-- The add-to-meal-log button handler (lines 209-219): load the log, lazily
initialize today's entry, add the plate total to the chosen slot, and
`save_log` the whole document. The first component is the persisted document
after the call; when `log[today][meal_choice]` raises a KeyError, `save_log`
is never reached, so the persisted document stays `log`. The outer `none`
branch is unreachable because `initDay` guarantees `today` is present; it is
mapped to the same KeyError outcome. -/
def addCalories (log : MealLog) (today meal_choice : String) (total_plate : Int) :
    MealLog × Except LogError Int :=
  match (initDay log today).lookup today with
  | none => (log, Except.error LogError.invalidSlot)
  | some meals =>
      match meals.lookup meal_choice with
      | none => (log, Except.error LogError.invalidSlot)
      | some v =>
          (dictInsert (initDay log today) today
             (dictInsert meals meal_choice (v + total_plate)),
           Except.ok (v + total_plate))

/-- Lines 74-76: on process start, if `meal_log.json` does not exist, write an
empty JSON object to it. `none` models an absent file. -/
def startupInit (fs : Option MealLog) : Option MealLog :=
  match fs with
  | none => some ([] : MealLog)
  | some l => some l

/-- The meal-tracker tab read path (lines 227-241): load the log; if today has
no entry, show "No meals logged today yet." (modelled as `none`); otherwise
show the day's slots and their sum. It never calls `save_log`, so the
persisted document is returned unchanged as the first component. -/
def tab_tracker (fs : MealLog) (today : String) : MealLog × Option (DaySlots × Int) :=
  match fs.lookup today with
  | none => (fs, none)
  | some meals => (fs, some (meals, (meals.map Prod.snd).sum))

/-- Line 237: the grand total displayed for a day that has an entry. -/
def total_today (log : MealLog) (d : String) : Option Int :=
  (log.lookup d).map fun meals => (meals.map Prod.snd).sum

/-- Modelled from the spec: `getDayTotals(date)` returns the stored day entry,
"or a default all-zero DaySlots if no entry exists". The code has no such
function: its read path (`tab_tracker`, lines 230-241) shows an info message
for an absent day instead of zero totals; the present-day branch is the
code's `log[today]`. -/
def getDayTotals (log : MealLog) (d : String) : DaySlots :=
  match log.lookup d with
  | some meals => meals
  | none => zeroSlots

/-- Modelled from the spec: `getGrandTotal(date)`, the sum of the slot values.
The present-day branch is the code's `total_today` (line 237); for an absent
day the code displays nothing and the spec's default is 0. -/
def getGrandTotal (log : MealLog) (d : String) : Int :=
  match total_today log d with
  | some t => t
  | none => 0

/-- Looking one slot of one date up directly in the raw document. -/
def slotLookup (log : MealLog) (d s : String) : Option Int :=
  (log.lookup d).bind fun meals => meals.lookup s

/-- The detection loop label adaptation (lines 176-181): lower-case the
detector's reported class name; if it is not a key of NUTRITION, fall back to
"apple". -/
def adaptLabel (rawName : String) : String :=
  let detected_name := rawName.toLower
  if (NUTRITION.lookup detected_name).isSome then detected_name else "apple"

/-- The spec's fixed fallback identifier; the code hard-wires "apple" (line 181). -/
def defaultIdentifier : String := "apple"

/-- Models `st.number_input(..., min_value=1, max_value=20, value=1, step=1)`
(lines 192-200): the widget only ever yields an integer clamped to the range
[min_value, max_value]. -/
def number_input_count (requested : Int) : Int := max 1 (min 20 requested)

/-- Line 216: `total_plate = sum(NUTRITION[name]["calories"] * count ...)`.
In the app every name comes from the selectbox over `list(NUTRITION.keys())`,
so the lookup always succeeds; the `getD 0` default is never taken on the
app's inputs (theorems about this function carry that membership
hypothesis). -/
def total_plate (final_items : List (String × Int)) : Int :=
  (final_items.map fun p => ((NUTRITION.lookup p.1).getD 0) * p.2).sum

/-- The meal logs reachable by the program: the file starts as the empty
document written at startup, and every mutation goes through the add-button
handler, whose amount is a plate total and hence non-negative. -/
inductive Reachable : MealLog → Prop
  | empty : Reachable []
  | step (log : MealLog) (d s : String) (a : Int) (ha : 0 ≤ a) :
      Reachable log → Reachable (addCalories log d s a).1

/-- The data-format invariant of the persisted document: every day entry has
exactly the four slot keys, in the order they are initialized, each holding a
non-negative total. -/
def LogInvariant (log : MealLog) : Prop :=
  ∀ d meals, log.lookup d = some meals →
    meals.map Prod.fst = MEAL_TYPES ∧ ∀ v ∈ meals.map Prod.snd, 0 ≤ v

/-- A small concrete log used to instantiate the theorems: the state after
logging one banana (105 kcal) to Breakfast on 2024-01-01. -/
def sampleLog : MealLog :=
  [("2024-01-01", [("Breakfast", 105), ("Lunch", 0), ("Dinner", 0), ("Snacks", 0)])]

/-! ### Association-list lemmas -/

theorem lookup_cons_ne {β : Type} {a k1 : String} (hne : a ≠ k1) (b : β)
    (es : List (String × β)) : ((k1, b) :: es).lookup a = es.lookup a := by
  rw [List.lookup_cons, show (a == k1) = false from beq_eq_false_iff_ne.mpr hne]

theorem lookup_dictInsert_self {β : Type} (l : List (String × β)) (k : String)
    (v : β) : (dictInsert l k v).lookup k = some v := by
  induction l with
  | nil => simp [dictInsert]
  | cons hd tl ih =>
      obtain ⟨k1, v1⟩ := hd
      by_cases h : k1 = k
      · simp [dictInsert, h]
      · simp only [dictInsert, h, if_false]
        rw [lookup_cons_ne (fun hh => h hh.symm), ih]

theorem lookup_dictInsert_ne {β : Type} (l : List (String × β)) (k k' : String)
    (v : β) (h : k' ≠ k) : (dictInsert l k v).lookup k' = l.lookup k' := by
  induction l with
  | nil => simp [dictInsert, lookup_cons_ne h]
  | cons hd tl ih =>
      obtain ⟨k1, v1⟩ := hd
      by_cases h1 : k1 = k
      · subst h1
        have hrw : dictInsert ((k1, v1) :: tl) k1 v = (k1, v) :: tl := by
          simp [dictInsert]
        rw [hrw, lookup_cons_ne h, lookup_cons_ne h]
      · simp only [dictInsert, h1, if_false]
        by_cases h2 : k' = k1
        · subst h2; simp
        · rw [lookup_cons_ne h2, lookup_cons_ne h2, ih]

theorem lookup_isSome_iff_mem_keys {β : Type} (l : List (String × β))
    (k : String) : (l.lookup k).isSome ↔ k ∈ l.map Prod.fst := by
  induction l with
  | nil => simp
  | cons hd tl ih =>
      obtain ⟨k1, v1⟩ := hd
      by_cases h : k = k1
      · subst h; simp
      · rw [lookup_cons_ne h]
        simp [ih, h]

theorem keys_dictInsert_of_mem {β : Type} {l : List (String × β)} {k : String}
    (v : β) (h : k ∈ l.map Prod.fst) :
    (dictInsert l k v).map Prod.fst = l.map Prod.fst := by
  induction l with
  | nil => simp at h
  | cons hd tl ih =>
      obtain ⟨k1, v1⟩ := hd
      by_cases h1 : k1 = k
      · simp [dictInsert, h1]
      · simp only [List.map_cons, List.mem_cons] at h
        rcases h with h | h
        · exact absurd h.symm h1
        · simp [dictInsert, h1, ih h]

theorem keys_dictInsert_of_not_mem {β : Type} {l : List (String × β)}
    {k : String} (v : β) (h : k ∉ l.map Prod.fst) :
    (dictInsert l k v).map Prod.fst = l.map Prod.fst ++ [k] := by
  induction l with
  | nil => simp [dictInsert]
  | cons hd tl ih =>
      obtain ⟨k1, v1⟩ := hd
      simp only [List.map_cons, List.mem_cons] at h
      push_neg at h
      have h1 : ¬k1 = k := fun hh => h.1 hh.symm
      simp [dictInsert, h1, ih h.2]

theorem lookup_mem_values {β : Type} {l : List (String × β)} {k : String}
    {v : β} (h : l.lookup k = some v) : v ∈ l.map Prod.snd := by
  induction l with
  | nil => simp at h
  | cons hd tl ih =>
      obtain ⟨k1, v1⟩ := hd
      by_cases h1 : k = k1
      · subst h1
        simp at h
        simp [h]
      · rw [lookup_cons_ne h1] at h
        simp [ih h]

theorem mem_values_dictInsert {β : Type} {l : List (String × β)} {k : String}
    {v w : β} (h : w ∈ (dictInsert l k v).map Prod.snd) :
    w ∈ l.map Prod.snd ∨ w = v := by
  induction l with
  | nil =>
      simp [dictInsert] at h
      right; exact h
  | cons hd tl ih =>
      obtain ⟨k1, v1⟩ := hd
      by_cases h1 : k1 = k
      · simp [dictInsert, h1] at h
        rcases h with h | h
        · right; exact h
        · left; simp [h]
      · simp only [dictInsert, h1, if_false, List.map_cons, List.mem_cons] at h
        rcases h with h | h
        · left; simp [h]
        · rcases ih h with h' | h'
          · left; simp [h']
          · right; exact h'

theorem dictInsert_dictInsert_same {β : Type} (l : List (String × β))
    (k : String) (v w : β) :
    dictInsert (dictInsert l k v) k w = dictInsert l k w := by
  induction l with
  | nil => simp [dictInsert]
  | cons hd tl ih =>
      obtain ⟨k1, v1⟩ := hd
      by_cases h : k1 = k
      · simp [dictInsert, h]
      · simp [dictInsert, h, ih]

theorem lookup_map_const {β : Type} (ms : List String) (c : β) (s : String) :
    (ms.map fun m => (m, c)).lookup s = if s ∈ ms then some c else none := by
  induction ms with
  | nil => simp
  | cons hd tl ih =>
      by_cases h : s = hd
      · subst h; simp
      · rw [List.map_cons, lookup_cons_ne h, ih]
        simp [h]

theorem lookup_zeroSlots (s : String) :
    zeroSlots.lookup s = if s ∈ MEAL_TYPES then some 0 else none :=
  lookup_map_const MEAL_TYPES 0 s

/-! ### Behaviour of the lazy-initialization and add path -/

theorem initDay_of_present {log : MealLog} {d : String}
    (h : (log.lookup d).isSome) : initDay log d = log := by
  simp [initDay, h]

theorem initDay_of_absent {log : MealLog} {d : String}
    (h : log.lookup d = none) : initDay log d = dictInsert log d zeroSlots := by
  simp [initDay, h]

theorem lookup_initDay_self (log : MealLog) (d : String) :
    ((initDay log d).lookup d).isSome := by
  by_cases h : (log.lookup d).isSome
  · rw [initDay_of_present h]; exact h
  · rw [Option.not_isSome_iff_eq_none] at h
    rw [initDay_of_absent h, lookup_dictInsert_self]
    rfl

theorem initDay_idem (log : MealLog) (d : String) :
    initDay (initDay log d) d = initDay log d :=
  initDay_of_present (lookup_initDay_self log d)

theorem addCalories_absent_invalid {log : MealLog} {d s : String} (a : Int)
    (habs : log.lookup d = none) (hs : s ∉ MEAL_TYPES) :
    addCalories log d s a = (log, Except.error LogError.invalidSlot) := by
  have h0 : zeroSlots.lookup s = none := by rw [lookup_zeroSlots, if_neg hs]
  unfold addCalories
  rw [initDay_of_absent habs, lookup_dictInsert_self]
  simp only [h0]

theorem addCalories_absent_valid {log : MealLog} {d s : String} (a : Int)
    (habs : log.lookup d = none) (hs : s ∈ MEAL_TYPES) :
    addCalories log d s a =
      (dictInsert log d (dictInsert zeroSlots s a), Except.ok a) := by
  have h0 : zeroSlots.lookup s = some 0 := by rw [lookup_zeroSlots, if_pos hs]
  unfold addCalories
  rw [initDay_of_absent habs, lookup_dictInsert_self]
  simp only [h0, dictInsert_dictInsert_same, zero_add]

theorem addCalories_present_invalid {log : MealLog} {d s : String} (a : Int)
    {meals : DaySlots} (hp : log.lookup d = some meals)
    (hsl : meals.lookup s = none) :
    addCalories log d s a = (log, Except.error LogError.invalidSlot) := by
  unfold addCalories
  rw [initDay_of_present (by rw [hp]; rfl), hp]
  simp only [hsl]

theorem addCalories_present_valid {log : MealLog} {d s : String} (a : Int)
    {meals : DaySlots} {v : Int} (hp : log.lookup d = some meals)
    (hsl : meals.lookup s = some v) :
    addCalories log d s a =
      (dictInsert log d (dictInsert meals s (v + a)), Except.ok (v + a)) := by
  unfold addCalories
  rw [initDay_of_present (by rw [hp]; rfl), hp]
  simp only [hsl]

/-! ### The well-formedness invariant of the persisted document -/

theorem zeroSlots_keys : zeroSlots.map Prod.fst = MEAL_TYPES := by decide

theorem zeroSlots_values_nonneg : ∀ v ∈ zeroSlots.map Prod.snd, (0 : Int) ≤ v := by
  decide

theorem logInvariant_addCalories {log : MealLog} (hinv : LogInvariant log)
    {d s : String} {a : Int} (ha : 0 ≤ a) :
    LogInvariant (addCalories log d s a).1 := by
  rcases hlog : log.lookup d with _ | meals
  · by_cases hs : s ∈ MEAL_TYPES
    · rw [addCalories_absent_valid a hlog hs]
      intro d' meals' hl'
      by_cases hd : d' = d
      · subst hd
        rw [lookup_dictInsert_self] at hl'
        cases hl'
        refine ⟨?_, ?_⟩
        · rw [keys_dictInsert_of_mem _ (zeroSlots_keys ▸ hs)]
          exact zeroSlots_keys
        · intro v hv
          rcases mem_values_dictInsert hv with h | h
          · exact zeroSlots_values_nonneg v h
          · omega
      · rw [lookup_dictInsert_ne _ _ _ _ hd] at hl'
        exact hinv d' meals' hl'
    · rw [addCalories_absent_invalid a hlog hs]
      exact hinv
  · rcases hsl : meals.lookup s with _ | v
    · rw [addCalories_present_invalid a hlog hsl]
      exact hinv
    · rw [addCalories_present_valid a hlog hsl]
      intro d' meals' hl'
      by_cases hd : d' = d
      · subst hd
        rw [lookup_dictInsert_self] at hl'
        cases hl'
        obtain ⟨hkeys, hvals⟩ := hinv d' meals hlog
        refine ⟨?_, ?_⟩
        · rw [keys_dictInsert_of_mem _
            ((lookup_isSome_iff_mem_keys meals s).mp (by rw [hsl]; rfl))]
          exact hkeys
        · intro w hw
          rcases mem_values_dictInsert hw with h | h
          · exact hvals w h
          · have hv0 := hvals v (lookup_mem_values hsl)
            omega
      · rw [lookup_dictInsert_ne _ _ _ _ hd] at hl'
        exact hinv d' meals' hl'

theorem reachable_logInvariant {log : MealLog} (h : Reachable log) :
    LogInvariant log := by
  induction h with
  | empty => intro d meals hl; simp at hl
  | step log d s a ha _ ih => exact logInvariant_addCalories ih ha

/-! ### Frame and monotonicity of the add path -/

theorem addCalories_frame_other_date {log : MealLog} {d s : String} {a : Int}
    {d' : String} (hd : d' ≠ d) :
    ((addCalories log d s a).1).lookup d' = log.lookup d' := by
  rcases hlog : log.lookup d with _ | meals
  · by_cases hs : s ∈ MEAL_TYPES
    · rw [addCalories_absent_valid a hlog hs, lookup_dictInsert_ne _ _ _ _ hd]
    · rw [addCalories_absent_invalid a hlog hs]
  · rcases hsl : meals.lookup s with _ | v
    · rw [addCalories_present_invalid a hlog hsl]
    · rw [addCalories_present_valid a hlog hsl, lookup_dictInsert_ne _ _ _ _ hd]

theorem addCalories_frame_other_slot {log : MealLog} {d s : String} {a : Int}
    {s' : String} (hs' : s' ≠ s) :
    (getDayTotals (addCalories log d s a).1 d).lookup s'
      = (getDayTotals log d).lookup s' := by
  rcases hlog : log.lookup d with _ | meals
  · by_cases hs : s ∈ MEAL_TYPES
    · rw [addCalories_absent_valid a hlog hs]
      simp only [getDayTotals, lookup_dictInsert_self, hlog]
      rw [lookup_dictInsert_ne _ _ _ _ hs']
    · rw [addCalories_absent_invalid a hlog hs]
  · rcases hsl : meals.lookup s with _ | v
    · rw [addCalories_present_invalid a hlog hsl]
    · rw [addCalories_present_valid a hlog hsl]
      simp only [getDayTotals, lookup_dictInsert_self, hlog]
      rw [lookup_dictInsert_ne _ _ _ _ hs']

theorem lookup_addCalories_isSome {log : MealLog} (d s : String) (a : Int)
    {d' : String} (h : (log.lookup d').isSome) :
    (((addCalories log d s a).1).lookup d').isSome := by
  by_cases hd : d' = d
  · subst hd
    rcases hlog : log.lookup d' with _ | meals
    · rw [hlog] at h; simp at h
    · rcases hsl : meals.lookup s with _ | v0
      · rw [addCalories_present_invalid a hlog hsl, hlog]; rfl
      · rw [addCalories_present_valid a hlog hsl, lookup_dictInsert_self]; rfl
  · rw [addCalories_frame_other_date hd]; exact h

theorem slotLookup_addCalories_mono {log : MealLog} {d s : String} {a : Int}
    (ha : 0 ≤ a) {d' s' : String} {v : Int}
    (h : slotLookup log d' s' = some v) :
    ∃ w, slotLookup (addCalories log d s a).1 d' s' = some w ∧ v ≤ w := by
  by_cases hd : d' = d
  · subst hd
    rcases hlog : log.lookup d' with _ | meals
    · simp [slotLookup, hlog] at h
    · have hm : meals.lookup s' = some v := by simpa [slotLookup, hlog] using h
      rcases hsl : meals.lookup s with _ | v0
      · refine ⟨v, ?_, le_refl v⟩
        rw [addCalories_present_invalid a hlog hsl]
        simp [slotLookup, hlog, hm]
      · by_cases hss : s' = s
        · subst hss
          rw [hm] at hsl
          injection hsl with hv
          subst hv
          refine ⟨v + a, ?_, by omega⟩
          rw [addCalories_present_valid a hlog hm]
          simp [slotLookup, lookup_dictInsert_self]
        · refine ⟨v, ?_, le_refl v⟩
          rw [addCalories_present_valid a hlog hsl]
          simp [slotLookup, lookup_dictInsert_self]
          rw [lookup_dictInsert_ne _ _ _ _ hss]
          exact hm
  · refine ⟨v, ?_, le_refl v⟩
    rw [slotLookup, addCalories_frame_other_date hd]
    rw [slotLookup] at h
    exact h

theorem slotLookup_addCalories_self {log : MealLog} {d s : String} {v : Int}
    (h : slotLookup log d s = some v) (a : Int) :
    slotLookup (addCalories log d s a).1 d s = some (v + a) := by
  rcases hlog : log.lookup d with _ | meals
  · simp [slotLookup, hlog] at h
  · have hm : meals.lookup s = some v := by simpa [slotLookup, hlog] using h
    rw [addCalories_present_valid a hlog hm]
    simp [slotLookup, lookup_dictInsert_self]

theorem addCalories_ok_lookup_self {log : MealLog} {d s : String} {a t : Int}
    (hok : (addCalories log d s a).2 = Except.ok t) :
    (((addCalories log d s a).1).lookup d).isSome := by
  rcases hlog : log.lookup d with _ | meals
  · by_cases hs : s ∈ MEAL_TYPES
    · rw [addCalories_absent_valid a hlog hs, lookup_dictInsert_self]; rfl
    · rw [addCalories_absent_invalid a hlog hs] at hok
      simp at hok
  · rcases hsl : meals.lookup s with _ | v0
    · rw [addCalories_present_invalid a hlog hsl] at hok
      simp at hok
    · rw [addCalories_present_valid a hlog hsl, lookup_dictInsert_self]; rfl

/-! ### Nutrition table and plate totals -/

theorem NUTRITION_values_pos : ∀ q ∈ NUTRITION, 0 < q.2 := by decide

theorem NUTRITION_lookup_pos {name : String} {c : Int}
    (h : NUTRITION.lookup name = some c) : 0 < c := by
  have hmem := lookup_mem_values h
  have hall : ∀ v ∈ NUTRITION.map Prod.snd, (0 : Int) < v := by decide
  exact hall c hmem

theorem total_plate_nonneg {items : List (String × Int)}
    (hitems : ∀ p ∈ items, (NUTRITION.lookup p.1).isSome ∧ 1 ≤ p.2) :
    0 ≤ total_plate items := by
  induction items with
  | nil => simp [total_plate]
  | cons hd tl ih =>
      obtain ⟨hsome, hcnt⟩ := hitems hd (List.mem_cons_self hd tl)
      obtain ⟨c, hc⟩ := Option.isSome_iff_exists.mp hsome
      have hcpos := NUTRITION_lookup_pos hc
      have hterm : 0 ≤ ((NUTRITION.lookup hd.1).getD 0) * hd.2 := by
        rw [hc, Option.getD_some]
        exact le_of_lt (mul_pos hcpos (by omega))
      have htl : 0 ≤ total_plate tl :=
        ih fun p hp => hitems p (List.mem_cons_of_mem hd hp)
      simp only [total_plate, List.map_cons, List.sum_cons]
      exact add_nonneg hterm (by simpa [total_plate] using htl)

theorem total_plate_pos {items : List (String × Int)} (hne : items ≠ [])
    (hitems : ∀ p ∈ items, (NUTRITION.lookup p.1).isSome ∧ 1 ≤ p.2) :
    0 < total_plate items := by
  cases items with
  | nil => exact absurd rfl hne
  | cons hd tl =>
      obtain ⟨hsome, hcnt⟩ := hitems hd (List.mem_cons_self hd tl)
      obtain ⟨c, hc⟩ := Option.isSome_iff_exists.mp hsome
      have hcpos := NUTRITION_lookup_pos hc
      have hterm : 0 < ((NUTRITION.lookup hd.1).getD 0) * hd.2 := by
        rw [hc, Option.getD_some]
        exact mul_pos hcpos (by omega)
      have htl : 0 ≤ total_plate tl :=
        total_plate_nonneg fun p hp => hitems p (List.mem_cons_of_mem hd hp)
      simp only [total_plate, List.map_cons, List.sum_cons]
      exact add_pos_of_pos_of_nonneg hterm (by simpa [total_plate] using htl)

/-! ### Claim theorems -/

/-- C1: starting from a date with no entry, adding a and then b to the same
recognized slot leaves that slot total at a + b (accumulation, not
overwrite); the initialization step is idempotent; repeating the same call
doubles the amount; and in general an add extends the existing slot total. -/
theorem c1_accumulation {log : MealLog} {d s : String} {a b : Int}
    (habs : log.lookup d = none) (hs : s ∈ MEAL_TYPES) (ha : 0 ≤ a) (hb : 0 ≤ b) :
    (getDayTotals (addCalories (addCalories log d s a).1 d s b).1 d).lookup s
        = some (a + b)
    ∧ initDay (initDay log d) d = initDay log d
    ∧ (getDayTotals (addCalories (addCalories log d s a).1 d s a).1 d).lookup s
        = some (a + a)
    ∧ (∀ (log2 : MealLog) (v : Int), slotLookup log2 d s = some v →
        slotLookup (addCalories log2 d s b).1 d s = some (v + b)) := by
  have key : ∀ c : Int,
      (getDayTotals (addCalories (addCalories log d s a).1 d s c).1 d).lookup s
        = some (a + c) := by
    intro c
    have h1 : (addCalories log d s a).1
        = dictInsert log d (dictInsert zeroSlots s a) := by
      rw [addCalories_absent_valid a habs hs]
    have hp1 : ((addCalories log d s a).1).lookup d
        = some (dictInsert zeroSlots s a) := by
      rw [h1, lookup_dictInsert_self]
    have hs1 : (dictInsert zeroSlots s a).lookup s = some a :=
      lookup_dictInsert_self _ _ _
    rw [addCalories_present_valid c hp1 hs1]
    simp only [getDayTotals, lookup_dictInsert_self]
  exact ⟨key b, initDay_idem log d, key a,
    fun log2 v hv => slotLookup_addCalories_self hv b⟩

/-- C1 witness: two lunches (290 then 133 kcal) on a fresh date total 423. -/
theorem c1_accumulation_witness :
    (getDayTotals (addCalories (addCalories ([] : MealLog) "2024-01-01" "Lunch" 290).1
        "2024-01-01" "Lunch" 133).1 "2024-01-01").lookup "Lunch" = some (290 + 133)
    ∧ initDay (initDay ([] : MealLog) "2024-01-01") "2024-01-01"
        = initDay ([] : MealLog) "2024-01-01"
    ∧ (getDayTotals (addCalories (addCalories ([] : MealLog) "2024-01-01" "Lunch" 290).1
        "2024-01-01" "Lunch" 290).1 "2024-01-01").lookup "Lunch" = some (290 + 290)
    ∧ slotLookup (addCalories (addCalories ([] : MealLog) "2024-01-01" "Lunch" 290).1
        "2024-01-01" "Lunch" 133).1 "2024-01-01" "Lunch" = some (290 + 133) := by
  obtain ⟨h1, h2, h3, h4⟩ :=
    @c1_accumulation ([] : MealLog) "2024-01-01" "Lunch" 290 133
      rfl (by decide) (by decide) (by decide)
  exact ⟨h1, h2, h3,
    h4 (addCalories ([] : MealLog) "2024-01-01" "Lunch" 290).1 290 (by decide)⟩

/-- C2: on any reachable log, every existing day entry carries exactly the
four slot keys, in order, each mapped to a non-negative total: the lazy
initialization writes all four slots before the first accumulation, so no
partial slot set is ever persisted. -/
theorem c2_day_entries_wellformed {log : MealLog} (h : Reachable log)
    {d : String} {meals : DaySlots} (hl : log.lookup d = some meals) :
    meals.map Prod.fst = MEAL_TYPES ∧ ∀ v ∈ meals.map Prod.snd, 0 ≤ v :=
  reachable_logInvariant h d meals hl

/-- C2 witness: after one add on the empty log the single day entry has the
four slots. -/
theorem c2_day_entries_wellformed_witness :
    ([("Breakfast", (105 : Int)), ("Lunch", 0), ("Dinner", 0),
        ("Snacks", 0)].map Prod.fst = MEAL_TYPES)
    ∧ ∀ v ∈ ([("Breakfast", (105 : Int)), ("Lunch", 0), ("Dinner", 0),
        ("Snacks", 0)].map Prod.snd), 0 ≤ v :=
  @c2_day_entries_wellformed (addCalories [] "2024-01-01" "Breakfast" 105).1
    (Reachable.step [] "2024-01-01" "Breakfast" 105 (by decide) Reachable.empty)
    "2024-01-01"
    [("Breakfast", (105 : Int)), ("Lunch", 0), ("Dinner", 0), ("Snacks", 0)]
    rfl

/-- C3: a successful add persists the whole document, not just the modified
entry: every date present before the call is still present in the persisted
result, and the written date is present; at startup an absent file is
replaced by a persisted empty log, so the document exists from then on. -/
theorem c3_persistence {log : MealLog} {d s : String} {a t : Int}
    (hok : (addCalories log d s a).2 = Except.ok t) :
    (∀ d', (log.lookup d').isSome → (((addCalories log d s a).1).lookup d').isSome)
    ∧ (((addCalories log d s a).1).lookup d).isSome
    ∧ startupInit none = some ([] : MealLog)
    ∧ ∀ fs : Option MealLog, (startupInit fs).isSome := by
  refine ⟨fun d' h => lookup_addCalories_isSome d s a h,
    addCalories_ok_lookup_self hok, rfl, ?_⟩
  intro fs
  cases fs <;> rfl

/-- C3 witness: adding dinner on a new date keeps the old date's entry in the
persisted document. -/
theorem c3_persistence_witness :
    (((addCalories sampleLog "2024-01-02" "Dinner" 300).1).lookup "2024-01-01").isSome
    ∧ (((addCalories sampleLog "2024-01-02" "Dinner" 300).1).lookup "2024-01-02").isSome
    ∧ startupInit none = some ([] : MealLog)
    ∧ (startupInit (some sampleLog)).isSome := by
  obtain ⟨h1, h2, h3, h4⟩ :=
    @c3_persistence sampleLog "2024-01-02" "Dinner" 300 300 rfl
  exact ⟨h1 "2024-01-01" rfl, h2, h3, h4 (some sampleLog)⟩

/-- C4: on a reachable log, adding to an unrecognized slot name fails with
InvalidSlotError and is atomic: the persisted document is exactly the
pre-call document, so every getDayTotals read is unchanged. -/
theorem c4_invalid_slot {log : MealLog} (h : Reachable log) (d : String)
    {s : String} (hs : s ∉ MEAL_TYPES) (a : Int) :
    addCalories log d s a = (log, Except.error LogError.invalidSlot)
    ∧ ∀ d', getDayTotals (addCalories log d s a).1 d' = getDayTotals log d' := by
  have main : addCalories log d s a = (log, Except.error LogError.invalidSlot) := by
    rcases hlog : log.lookup d with _ | meals
    · exact addCalories_absent_invalid a hlog hs
    · have hkeys := (reachable_logInvariant h d meals hlog).1
      have hnone : meals.lookup s = none := by
        rw [← Option.not_isSome_iff_eq_none]
        intro hsome
        exact hs (hkeys ▸ (lookup_isSome_iff_mem_keys meals s).mp hsome)
      exact addCalories_present_invalid a hlog hnone
  exact ⟨main, fun d' => by rw [main]⟩

/-- C4 witness: slot "brunch" is rejected on the empty log and the document
is unchanged. -/
theorem c4_invalid_slot_witness :
    addCalories [] "2024-01-01" "brunch" 10
        = ([], Except.error LogError.invalidSlot)
    ∧ getDayTotals (addCalories [] "2024-01-01" "brunch" 10).1 "2024-01-01"
        = getDayTotals [] "2024-01-01" := by
  obtain ⟨h1, h2⟩ :=
    @c4_invalid_slot [] Reachable.empty "2024-01-01" "brunch" (by decide) 10
  exact ⟨h1, h2 "2024-01-01"⟩

/-- C5: reading a date with no entry yields the all-zero day (the spec's
read-through default) and does not mutate persisted state: the tracker read
path returns the document unchanged, and the document still lacks the key
afterwards. -/
theorem c5_read_default {log : MealLog} {d : String} (h : log.lookup d = none) :
    getDayTotals log d = zeroSlots
    ∧ tab_tracker log d = (log, none)
    ∧ ((tab_tracker log d).1).lookup d = none := by
  refine ⟨?_, ?_, ?_⟩
  · simp [getDayTotals, h]
  · simp [tab_tracker, h]
  · simp [tab_tracker, h]

/-- C5 witness: reading 2024-01-02, a date the sample log lacks. -/
theorem c5_read_default_witness :
    getDayTotals sampleLog "2024-01-02" = zeroSlots
    ∧ tab_tracker sampleLog "2024-01-02" = (sampleLog, none)
    ∧ ((tab_tracker sampleLog "2024-01-02").1).lookup "2024-01-02" = none :=
  @c5_read_default sampleLog "2024-01-02" rfl

/-- C6: every candidate label the detection loop produces is a key of the
Nutrition Table: the reported class name is lower-cased, kept when it is a
table key, and otherwise replaced by the default identifier "apple", which is
itself a table key. -/
theorem c6_label_fallback (rawName : String) :
    (NUTRITION.lookup (adaptLabel rawName)).isSome
    ∧ (NUTRITION.lookup defaultIdentifier).isSome
    ∧ adaptLabel rawName =
        (if (NUTRITION.lookup rawName.toLower).isSome then rawName.toLower
         else defaultIdentifier) := by
  by_cases h : (NUTRITION.lookup rawName.toLower).isSome
  · refine ⟨?_, by decide, ?_⟩
    · simp [adaptLabel, h]
    · simp [adaptLabel, h]
  · rw [Bool.not_eq_true] at h
    have hl : adaptLabel rawName = "apple" := by simp [adaptLabel, h]
    refine ⟨?_, by decide, ?_⟩
    · rw [hl]
      decide
    · rw [hl, h]
      simp [defaultIdentifier]

/-- C7: the grand total of a date equals the sum of the four slot values
returned by getDayTotals, for present days (where it is the code's
`total_today`) and for absent days (where both sides are zero). -/
theorem c7_grand_total (log : MealLog) (d : String) :
    getGrandTotal log d = ((getDayTotals log d).map Prod.snd).sum := by
  rcases h : log.lookup d with _ | meals
  · simp only [getGrandTotal, total_today, getDayTotals, h, Option.map_none']
    decide
  · simp only [getGrandTotal, total_today, getDayTotals, h, Option.map_some']

/-- C8: slot totals are monotone over the life of the log: an add never
removes a date entry, never decreases a written slot value, and on reachable
logs every written slot value is non-negative — so a date only moves from
absent to initialized to accumulated. -/
theorem c8_monotone {log : MealLog} {d s : String} {a : Int} (ha : 0 ≤ a) :
    (∀ d', (log.lookup d').isSome → (((addCalories log d s a).1).lookup d').isSome)
    ∧ (∀ d' s' v, slotLookup log d' s' = some v →
        ∃ w, slotLookup (addCalories log d s a).1 d' s' = some w ∧ v ≤ w)
    ∧ (Reachable log → ∀ d' meals, log.lookup d' = some meals →
        ∀ v ∈ meals.map Prod.snd, 0 ≤ v) :=
  ⟨fun _ h => lookup_addCalories_isSome d s a h,
   fun _ _ _ h => slotLookup_addCalories_mono ha h,
   fun hr d' meals hl => (reachable_logInvariant hr d' meals hl).2⟩

/-- C8 witness: adding lunch leaves the breakfast total no smaller, and the
sample log's written values are non-negative. -/
theorem c8_monotone_witness :
    (((addCalories sampleLog "2024-01-01" "Lunch" 290).1).lookup "2024-01-01").isSome
    ∧ (∃ w, slotLookup (addCalories sampleLog "2024-01-01" "Lunch" 290).1
        "2024-01-01" "Breakfast" = some w ∧ (105 : Int) ≤ w)
    ∧ ∀ v ∈ ([("Breakfast", (105 : Int)), ("Lunch", 0), ("Dinner", 0),
        ("Snacks", 0)].map Prod.snd), 0 ≤ v := by
  obtain ⟨h1, h2, h3⟩ := @c8_monotone sampleLog "2024-01-01" "Lunch" 290 (by decide)
  have hr : Reachable sampleLog := by
    have he : sampleLog = (addCalories [] "2024-01-01" "Breakfast" 105).1 := by decide
    rw [he]
    exact Reachable.step [] "2024-01-01" "Breakfast" 105 (by decide) Reachable.empty
  exact ⟨h1 "2024-01-01" rfl, h2 "2024-01-01" "Breakfast" 105 rfl,
    h3 hr "2024-01-01" _ rfl⟩

/-- C9: the add path modifies only the chosen slot of the chosen date: every
other date's raw entry is unchanged, and every other slot of the written date
reads the same through getDayTotals before and after. -/
theorem c9_frame (log : MealLog) (d s : String) (a : Int) :
    (∀ d', d' ≠ d → ((addCalories log d s a).1).lookup d' = log.lookup d')
    ∧ (∀ s', s' ≠ s → (getDayTotals (addCalories log d s a).1 d).lookup s'
        = (getDayTotals log d).lookup s') :=
  ⟨fun _ hd => addCalories_frame_other_date hd,
   fun _ hs => addCalories_frame_other_slot hs⟩

/-- C9 witness: adding lunch on 2024-01-01 leaves 2024-01-02 and the
breakfast slot untouched. -/
theorem c9_frame_witness :
    ((addCalories sampleLog "2024-01-01" "Lunch" 290).1).lookup "2024-01-02"
        = sampleLog.lookup "2024-01-02"
    ∧ (getDayTotals (addCalories sampleLog "2024-01-01" "Lunch" 290).1
        "2024-01-01").lookup "Breakfast"
        = (getDayTotals sampleLog "2024-01-01").lookup "Breakfast" := by
  obtain ⟨h1, h2⟩ := c9_frame sampleLog "2024-01-01" "Lunch" 290
  exact ⟨h1 "2024-01-02" (by decide), h2 "Breakfast" (by decide)⟩

/-- C10: the count widget only yields integers clamped to [1, 20]; a
non-empty plate of table items with counts in that range has a strictly
positive total, because every Nutrition Table calorie value is positive. -/
theorem c10_count_clamped {items : List (String × Int)} (hne : items ≠ [])
    (hitems : ∀ p ∈ items, (NUTRITION.lookup p.1).isSome ∧ 1 ≤ p.2 ∧ p.2 ≤ 20) :
    (∀ r : Int, 1 ≤ number_input_count r ∧ number_input_count r ≤ 20)
    ∧ 0 < total_plate items
    ∧ ∀ q ∈ NUTRITION, 0 < q.2 := by
  refine ⟨?_, ?_, NUTRITION_values_pos⟩
  · intro r
    simp only [number_input_count]
    exact ⟨le_max_left 1 _, max_le (by norm_num) (min_le_left 20 r)⟩
  · exact total_plate_pos hne fun p hp => ⟨(hitems p hp).1, (hitems p hp).2.1⟩

/-- C10 witness: a plate of two bananas and one dosa. -/
theorem c10_count_clamped_witness :
    (1 ≤ number_input_count 99 ∧ number_input_count 99 ≤ 20)
    ∧ 0 < total_plate [("banana", 2), ("dosa", 1)]
    ∧ 0 < (("banana", (105 : Int))).2 := by
  obtain ⟨h1, h2, h3⟩ :=
    @c10_count_clamped [("banana", (2 : Int)), ("dosa", 1)] (by decide) (by decide)
  exact ⟨h1 99, h2, h3 ("banana", 105) (by decide)⟩
